import Mathlib

/-!
Verification of the InfoGAN training script (`infoGANs/infogan.py`).

The script builds three Keras models (generator, discriminator, recognition
network), wires them into a combined model, and runs an adversarial training
loop.  This file gives a shallow embedding of the script's data and operations:

* tensors are total functions out of `Fin` index types (shapes live in the
  types), batches and rows are `List ℝ`;
* Keras backend operations (`K.mean`, `K.sum`, `K.log`, layer forward passes)
  are embedded as the corresponding real-number operations;
* randomness (`np.random.normal`, `np.random.randint`) is embedded by passing
  the drawn values in as function arguments (`np.random.randint(0, n, ...)`
  always lands in `[0, n)`, embedded as reduction mod `n`);
* the training loop body is embedded as the list of framework calls it makes,
  in program order;
* Keras weight-variable allocation is embedded as a counter handing out fresh
  ids, so weight (non-)sharing between models becomes disjointness of id lists,
  and the `trainable` flags captured at `compile` time determine which ids a
  `train_on_batch` step may touch.
-/

/- ### Constants fixed in `InfoGAN.__init__` -/

/-- The image height, `self.img_rows = 32`. -/
def img_rows : ℕ := 32

/-- The image width, `self.img_cols = 32`. -/
def img_cols : ℕ := 32

/-- The number of image channels, `self.channels = 3`. -/
def channels : ℕ := 3

/-- The number of categorical classes, `self.num_classes = 10`. -/
def num_classes : ℕ := 10

/-- The latent dimension, `self.latent_dim = 134`. -/
def latent_dim : ℕ := 134

/- ### Keras backend operations on batches (`List (List ℝ)` = 2-D tensors) -/

/-- The Keras backend mean `K.mean` of a 1-D tensor: sum divided by length
(the mean of an empty tensor is `0/0 = 0` in Lean's real division). -/
noncomputable def kMean (v : List ℝ) : ℝ := v.sum / v.length

/-- The per-row value of `- K.sum(K.log(x + eps) * y, axis=1)`: the logarithm
is applied elementwise to `x + eps`, multiplied elementwise by `y`, summed
along the row, and negated. -/
noncomputable def negSumLogMul (eps : ℝ) (xrow yrow : List ℝ) : ℝ :=
  -(List.zipWith (fun x y => Real.log (x + eps) * y) xrow yrow).sum

/-- `InfoGAN.mutual_info_loss(c, c_given_x)` from the source:

    eps = 1e-8
    conditional_entropy = K.mean(- K.sum(K.log(c_given_x + eps) * c, axis=1))
    entropy = K.mean(- K.sum(K.log(c + eps) * c, axis=1))
    return conditional_entropy + entropy

`c` and `c_given_x` are batches of rows (axis 0 = batch, axis 1 = classes). -/
noncomputable def mutual_info_loss (c c_given_x : List (List ℝ)) : ℝ :=
  let eps : ℝ := 1e-8
  let conditional_entropy : ℝ :=
    kMean (List.zipWith (fun xr yr => negSumLogMul eps xr yr) c_given_x c)
  let entropy : ℝ :=
    kMean (List.zipWith (fun xr yr => negSumLogMul eps xr yr) c c)
  conditional_entropy + entropy

/-- The mutual-information formula exactly as the specification writes it:
`mean(-sum(log(c_given_x+ε)*c, axis=1)) + mean(-sum(log(c+ε)*c, axis=1))`
with `ε = 1e-8`; the second mean is written directly as a per-row map over
`c`. -/
noncomputable def spec_mutual_info_formula (c c_given_x : List (List ℝ)) : ℝ :=
  kMean (List.zipWith
      (fun cr xr => -((List.zipWith (fun cj xj => Real.log (xj + 1e-8) * cj) cr xr).sum))
      c c_given_x)
  + kMean (c.map (fun cr => -((cr.map (fun cj => Real.log (cj + 1e-8) * cj)).sum)))

/- ### Probability-distribution predicates -/

/-- A row is a valid probability distribution: entrywise non-negative and
summing to `1`. -/
def isDistRow (row : List ℝ) : Prop := (∀ x ∈ row, 0 ≤ x) ∧ row.sum = 1

/-- A batch is valid when every row is a valid probability distribution. -/
def isDistBatch (m : List (List ℝ)) : Prop := ∀ row ∈ m, isDistRow row

/-- A row is one-hot: every entry is `0` or `1` and the entries sum to `1`. -/
def isOneHot (row : List ℝ) : Prop := (∀ x ∈ row, x = 0 ∨ x = 1) ∧ row.sum = 1

/-- A row has exactly one entry equal to `1` and all other entries `0`. -/
def exactlyOneHot (row : List ℝ) : Prop :=
  ∃ k, ∃ hk : k < row.length, row.get ⟨k, hk⟩ = 1 ∧
    ∀ j, ∀ hj : j < row.length, j ≠ k → row.get ⟨j, hj⟩ = 0

/- ### Latent-input sampling (`sample_generator_input`) -/

/-- `keras.utils.to_categorical(y, num_classes)` for a single label: the
one-hot row of length `n` with a `1` in position `y`. -/
def to_categorical (n : ℕ) (y : ℕ) : List ℝ :=
  (List.range n).map (fun j => if j = y then 1 else 0)

/-- `InfoGAN.sample_generator_input(batch_size, noise_variable=124)`.
`noiseRand i j` stands for the draw `np.random.normal(0, 1, ...)[i, j]`;
`labelRand i % num_classes` stands for `np.random.randint(0, num_classes,
batch_size)[i]` (the library call always returns a value in
`[0, num_classes)`).  Returns `(sampled_noise, sampled_labels)`. -/
def sample_generator_input (noiseRand : ℕ → ℕ → ℝ) (labelRand : ℕ → ℕ)
    (batch_size : ℕ) (noise_variable : ℕ) :
    List (List ℝ) × List (List ℝ) :=
  ((List.range batch_size).map (fun i => (List.range noise_variable).map (noiseRand i)),
   (List.range batch_size).map (fun i => to_categorical num_classes (labelRand i % num_classes)))

/-- `np.concatenate((a, b), axis=1)`: rowwise concatenation of two batches. -/
def np_concat_axis1 (a b : List (List ℝ)) : List (List ℝ) :=
  List.zipWith (fun r s => r ++ s) a b

/- ### Adversarial ground truths built in `train` -/

/-- `valid = np.ones((batch_size, self.channels))`. -/
def validArr (batch_size : ℕ) : List (List ℝ) :=
  List.replicate batch_size (List.replicate channels 1)

/-- `fake = np.zeros((batch_size, self.channels))`. -/
def fakeArr (batch_size : ℕ) : List (List ℝ) :=
  List.replicate batch_size (List.replicate channels 0)

/-- `d_loss = 0.5 * np.add(d_loss_real, d_loss_fake)`: elementwise average of
the two reported loss/metric vectors. -/
def d_loss (d_loss_real d_loss_fake : List ℝ) : List ℝ :=
  List.zipWith (fun a b => 0.5 * (a + b)) d_loss_real d_loss_fake

/- ### The training-loop body as a trace of framework calls -/

/-- One framework call made by the body of the `for epoch in range(epochs)`
loop in `InfoGAN.train`. -/
inductive TrainEvent where
  /-- `idx = np.random.randint(...)`; `imgs = X_train[idx]`. -/
  | sampleRealBatch
  /-- `sampled_noise, sampled_labels = self.sample_generator_input(batch_size)`
  followed by the `np.concatenate` into `gen_input`. -/
  | sampleGeneratorInput
  /-- `gen_imgs = self.generator.predict(gen_input)`. -/
  | generateFakeImages
  /-- `self.discriminator.train_on_batch(imgs, valid)`: one discriminator
  update on real images against the all-ones target. -/
  | discriminatorTrainReal
  /-- `self.discriminator.train_on_batch(gen_imgs, fake)`: one discriminator
  update on generated images against the all-zeros target. -/
  | discriminatorTrainFake
  /-- `d_loss = 0.5 * np.add(...)` and the `print` of the averaged loss. -/
  | reportAverageLoss
  /-- `self.combined.train_on_batch(gen_input, [valid, sampled_labels])`. -/
  | combinedTrain
  /-- `self.sample_images(epoch)`: render the sample grid to disk. -/
  | renderSampleGrid
deriving DecidableEq

/-- The trace of framework calls made by one iteration of `InfoGAN.train`,
in program order; the grid is rendered when `epoch % sample_interval == 0`. -/
def trainIterationEvents (epoch sample_interval : ℕ) : List TrainEvent :=
  [TrainEvent.sampleRealBatch, TrainEvent.sampleGeneratorInput,
   TrainEvent.generateFakeImages, TrainEvent.discriminatorTrainReal,
   TrainEvent.discriminatorTrainFake, TrainEvent.reportAverageLoss,
   TrainEvent.combinedTrain]
  ++ (if epoch % sample_interval = 0 then [TrainEvent.renderSampleGrid] else [])

/-- The iteration trace as the specification describes it: the same seven
steps, with the grid rendered whenever the epoch index is a multiple of the
sample interval. -/
def specIterationEvents (epoch sample_interval : ℕ) : List TrainEvent :=
  [TrainEvent.sampleRealBatch, TrainEvent.sampleGeneratorInput,
   TrainEvent.generateFakeImages, TrainEvent.discriminatorTrainReal,
   TrainEvent.discriminatorTrainFake, TrainEvent.reportAverageLoss,
   TrainEvent.combinedTrain]
  ++ (if sample_interval ∣ epoch then [TrainEvent.renderSampleGrid] else [])

/- ### Model persistence (`save`, `save_model`) -/

/-- The pair of files written by `InfoGAN.save(model, model_name)`: the
architecture JSON at `infoGANs/saved_model/<name>.json` and the weights at
`infoGANs/saved_model/<name>_weights.hdf5`. -/
def save (model_name : String) : String × String :=
  ("infoGANs/saved_model/" ++ model_name ++ ".json",
   "infoGANs/saved_model/" ++ model_name ++ "_weights.hdf5")

/-- `InfoGAN.save_model`: the models persisted, in order, each with its
artifact pair.  The source calls `self.save(self.generator, "generator")`
and `self.save(self.discriminator, "discriminator")` and nothing else. -/
def save_model : List (String × (String × String)) :=
  [("generator", save "generator"), ("discriminator", save "discriminator")]

/- ### Tensors and Keras layer forward passes -/

/-- A 1-D real tensor of length `n`. -/
def Tensor1 (n : ℕ) : Type := Fin n → ℝ

/-- A 3-D real tensor of shape `(h, w, c)` (height, width, channels). -/
def Tensor3 (h w c : ℕ) : Type := Fin h → Fin w → Fin c → ℝ

/-- The kernel of a `Conv2D(f, kernel_size=(kh, kw))` layer over `c` input
channels. -/
def ConvW (f kh kw c : ℕ) : Type := Fin f → Fin kh → Fin kw → Fin c → ℝ

/-- Inference-time parameters of a `BatchNormalization` layer over `n`
features or channels. -/
structure BNParams (n : ℕ) where
  gamma : Fin n → ℝ
  beta : Fin n → ℝ
  movingMean : Fin n → ℝ
  movingVar : Fin n → ℝ

/-- Reading a tensor at integer coordinates, zero outside the valid range
(implicit zero padding of convolution). -/
def padGet {h w c : ℕ} (t : Tensor3 h w c) (i j : ℤ) (k : Fin c) : ℝ :=
  if hi : 0 ≤ i ∧ i < (h : ℤ) then
    if hj : 0 ≤ j ∧ j < (w : ℤ) then
      t ⟨i.toNat, by omega⟩ ⟨j.toNat, by omega⟩ k
    else 0
  else 0

/-- Output spatial extent of TensorFlow `padding="same"` with stride `s`:
the ceiling of `h / s`. -/
def convSameOut (h s : ℕ) : ℕ := (h + s - 1) / s

/-- Top/left padding used by TensorFlow `padding="same"` (truncated natural
subtraction supplies the `max` with `0`). -/
def convSamePad (h s k : ℕ) : ℕ := ((convSameOut h s - 1) * s + k - h) / 2

/-- Forward pass of `Conv2D(f, kernel_size=(kh, kw), strides=s,
padding="same")`. -/
noncomputable def conv2dSame (s : ℕ) {kh kw f h w c : ℕ}
    (weight : ConvW f kh kw c) (bias : Fin f → ℝ) (t : Tensor3 h w c) :
    Tensor3 (convSameOut h s) (convSameOut w s) f :=
  fun i j o =>
    bias o + ∑ di : Fin kh, ∑ dj : Fin kw, ∑ ch : Fin c,
      weight o di dj ch *
        padGet t ((i.val : ℤ) * s + di.val - convSamePad h s kh)
                 ((j.val : ℤ) * s + dj.val - convSamePad w s kw) ch

/-- `UpSampling2D()` with its default size `(2, 2)`: nearest-neighbour
upsampling. -/
def upSampling2d {h w c : ℕ} (t : Tensor3 h w c) : Tensor3 (2 * h) (2 * w) c :=
  fun i j k =>
    t ⟨i.val / 2, by have := i.isLt; omega⟩ ⟨j.val / 2, by have := j.isLt; omega⟩ k

/-- `ZeroPadding2D(padding=((0,1),(0,1)))`: one extra zero row at the bottom
and one extra zero column at the right. -/
def zeroPad2d_0101 {h w c : ℕ} (t : Tensor3 h w c) : Tensor3 (h + 1) (w + 1) c :=
  fun i j k =>
    if hi : i.val < h then if hj : j.val < w then t ⟨i.val, hi⟩ ⟨j.val, hj⟩ k else 0
    else 0

/-- The `relu` activation, elementwise on a 1-D tensor. -/
def relu1 {n : ℕ} (v : Tensor1 n) : Tensor1 n := fun i => max (v i) 0

/-- The `relu` activation, elementwise on a 3-D tensor. -/
def relu3 {h w c : ℕ} (t : Tensor3 h w c) : Tensor3 h w c :=
  fun i j k => max (t i j k) 0

/-- `Activation("tanh")`, elementwise on a 3-D tensor. -/
noncomputable def tanh3 {h w c : ℕ} (t : Tensor3 h w c) : Tensor3 h w c :=
  fun i j k => Real.tanh (t i j k)

/-- `LeakyReLU(alpha)`: identity on non-negative inputs, slope `alpha`
below zero. -/
noncomputable def leakyRelu3 (alpha : ℝ) {h w c : ℕ} (t : Tensor3 h w c) :
    Tensor3 h w c :=
  fun i j k => if 0 ≤ t i j k then t i j k else alpha * t i j k

/-- `Dropout(rate)` outside training: Keras dropout is inactive at inference,
the identity map. -/
def dropout3 (_rate : ℝ) {h w c : ℕ} (t : Tensor3 h w c) : Tensor3 h w c := t

/-- `Dense(m)`: the affine map `x ↦ W·x + b` (Keras computes
`dot(input, kernel) + bias`). -/
noncomputable def denseLayer {n m : ℕ} (w : Fin m → Fin n → ℝ) (b : Fin m → ℝ)
    (x : Tensor1 n) : Tensor1 m :=
  fun i => (∑ j : Fin n, w i j * x j) + b i

/-- `BatchNormalization` at inference time on a 1-D tensor (per-feature
affine normalization against the moving statistics; Keras default
`epsilon=0.001`). -/
noncomputable def batchNorm1 {n : ℕ} (p : BNParams n) (x : Tensor1 n) : Tensor1 n :=
  fun i =>
    p.gamma i * ((x i - p.movingMean i) / Real.sqrt (p.movingVar i + 0.001)) + p.beta i

/-- `BatchNormalization` at inference time on a 3-D tensor (per-channel). -/
noncomputable def batchNorm3 {h w c : ℕ} (p : BNParams c) (t : Tensor3 h w c) :
    Tensor3 h w c :=
  fun i j k =>
    p.gamma k * ((t i j k - p.movingMean k) / Real.sqrt (p.movingVar k + 0.001)) + p.beta k

/-- `Reshape((4, 4, 448))` of a 7168-vector, row-major as in numpy/Keras. -/
def reshape_4_4_448 (x : Tensor1 7168) : Tensor3 4 4 448 :=
  fun i j k =>
    x ⟨(i.val * 4 + j.val) * 448 + k.val, by
      have hi := i.isLt; have hj := j.isLt; have hk := k.isLt; omega⟩

/-- `Flatten()`: row-major flattening of a 3-D tensor. -/
def flatten3 {h w c : ℕ} (t : Tensor3 h w c) : Tensor1 (h * w * c) :=
  fun n =>
    t ⟨n.val / (w * c), by
        have h1 : (n : ℕ) < h * (w * c) := lt_of_lt_of_eq n.isLt (Nat.mul_assoc h w c)
        rcases Nat.eq_zero_or_pos (w * c) with h0 | h0
        · exact absurd (lt_of_lt_of_eq h1 (by rw [h0, Nat.mul_zero]))
            (Nat.not_lt_zero _)
        · exact (Nat.div_lt_iff_lt_mul h0).mpr h1⟩
      ⟨(n.val % (w * c)) / c, by
        rcases Nat.eq_zero_or_pos c with hc | hc
        · exact absurd (lt_of_lt_of_eq n.isLt (by rw [hc, Nat.mul_zero]))
            (Nat.not_lt_zero _)
        · rcases Nat.eq_zero_or_pos w with hw | hw
          · exact absurd (lt_of_lt_of_eq n.isLt (by rw [hw, Nat.mul_zero, Nat.zero_mul]))
              (Nat.not_lt_zero _)
          · have hwc : 0 < w * c := Nat.mul_pos hw hc
            exact (Nat.div_lt_iff_lt_mul hc).mpr (Nat.mod_lt _ hwc)⟩
      ⟨n.val % c, by
        rcases Nat.eq_zero_or_pos c with hc | hc
        · exact absurd (lt_of_lt_of_eq n.isLt (by rw [hc, Nat.mul_zero]))
            (Nat.not_lt_zero _)
        · exact Nat.mod_lt _ hc⟩

/- ### The trunk, discriminator and generator forward passes -/

/-- The trainable weights of one instance of `discriminator_recognition_net`
at the default `layer_filters=[64, 128, 256]`. -/
structure TrunkWeights where
  c1w : ConvW 64 4 4 3
  c1b : Fin 64 → ℝ
  c2w : ConvW 128 4 4 64
  c2b : Fin 128 → ℝ
  bn2 : BNParams 128
  c3w : ConvW 256 4 4 128
  c3b : Fin 256 → ℝ
  bn3 : BNParams 256

/-- Forward pass of `discriminator_recognition_net` at the default
`layer_filters=[64, 128, 256]`.  The Python loop
`for filters in layer_filters[1:(len(layer_filters)-1)]` runs exactly once,
for `filters = 128`; `Dropout` layers are the identity at inference time. -/
noncomputable def discriminator_recognition_net (tw : TrunkWeights)
    (img : Tensor3 32 32 3) : Tensor1 6400 :=
  let x1 : Tensor3 16 16 64 :=
    dropout3 0.25 (leakyRelu3 0.1 (conv2dSame 2 tw.c1w tw.c1b img))
  let x2 : Tensor3 8 8 128 := conv2dSame 2 tw.c2w tw.c2b x1
  let x2p : Tensor3 9 9 128 :=
    batchNorm3 tw.bn2 (dropout3 0.25 (leakyRelu3 0.1 (zeroPad2d_0101 x2)))
  let x3 : Tensor3 5 5 256 :=
    batchNorm3 tw.bn3 (dropout3 0.25 (leakyRelu3 0.1 (conv2dSame 2 tw.c3w tw.c3b x2p)))
  flatten3 x3

/-- The trainable weights of `discriminator_model`: its own trunk instance
plus the `Dense(self.channels, activation="sigmoid")` head. -/
structure DiscWeights where
  trunk : TrunkWeights
  headW : Fin 3 → Fin 6400 → ℝ
  headB : Fin 3 → ℝ

/-- The `sigmoid` activation. -/
noncomputable def sigmoid (x : ℝ) : ℝ := 1 / (1 + Real.exp (-x))

/-- Forward pass of `discriminator_model`: a trunk instance followed by
`Dense(self.channels, activation="sigmoid")`, so each example yields
`channels` sigmoid units. -/
noncomputable def discriminator_forward (dw : DiscWeights) (img : Tensor3 32 32 3) :
    Tensor1 channels :=
  fun k =>
    sigmoid (denseLayer dw.headW dw.headB (discriminator_recognition_net dw.trunk img) k)

/-- The trainable weights of `generator_model` at the default
`layer_filters=[256, 128, 64]`. -/
structure GenWeights where
  d1w : Fin 1024 → Fin 134 → ℝ
  d1b : Fin 1024 → ℝ
  bn1 : BNParams 1024
  d2w : Fin 7168 → Fin 1024 → ℝ
  d2b : Fin 7168 → ℝ
  bn2 : BNParams 448
  cAw : ConvW 256 4 4 448
  cAb : Fin 256 → ℝ
  bnA : BNParams 256
  cBw : ConvW 128 4 4 256
  cBb : Fin 128 → ℝ
  bnB : BNParams 128
  cCw : ConvW 64 4 4 128
  cCb : Fin 64 → ℝ
  bnC : BNParams 64
  cOutW : ConvW 3 4 4 64
  cOutB : Fin 3 → ℝ

/-- Forward pass of `generator_model` at the default
`layer_filters=[256, 128, 64]` (the `for filters in layer_filters` loop
unrolled to its three iterations).  Dense layers carry their `relu`
activations; the final `Conv2D(self.channels, ...)` is followed by
`Activation("tanh")`. -/
noncomputable def generator_forward (gw : GenWeights) (z : Tensor1 134) :
    Tensor3 32 32 3 :=
  let x1 : Tensor1 1024 := batchNorm1 gw.bn1 (relu1 (denseLayer gw.d1w gw.d1b z))
  let x2 : Tensor1 7168 := relu1 (denseLayer gw.d2w gw.d2b x1)
  let x3 : Tensor3 4 4 448 := batchNorm3 gw.bn2 (reshape_4_4_448 x2)
  let xA : Tensor3 8 8 256 :=
    batchNorm3 gw.bnA (relu3 (conv2dSame 1 gw.cAw gw.cAb (upSampling2d x3)))
  let xB : Tensor3 16 16 128 :=
    batchNorm3 gw.bnB (relu3 (conv2dSame 1 gw.cBw gw.cBb (upSampling2d xA)))
  let xC : Tensor3 32 32 64 :=
    batchNorm3 gw.bnC (relu3 (conv2dSame 1 gw.cCw gw.cCb (upSampling2d xB)))
  tanh3 (conv2dSame 1 gw.cOutW gw.cOutB xC)

/-- `self.generator.predict`: the generator forward pass applied to every
example of a batch. -/
noncomputable def generator_predict (gw : GenWeights) {B : ℕ}
    (batch : Fin B → Tensor1 134) : Fin B → Tensor3 32 32 3 :=
  fun b => generator_forward gw (batch b)

/- ### Layer topology and weight-variable allocation -/

/-- A Keras layer as it appears in the model-building code.  `dense u`
stands for `Dense(u, ...)`; a `Dense` activation argument is recorded as the
separate activation tag that follows it. -/
inductive LayerTag where
  | conv2d (filters stride : ℕ)
  | zeroPad
  | leakyRelu
  | dropout
  | batchNorm
  | flatten
  | dense (units : ℕ)
  | actRelu
  | actSigmoid
  | actSoftmax
  | actTanh
  | upSampling
  | reshape
deriving DecidableEq

/-- The layer sequence built by `discriminator_recognition_net(layer_filters)`:
the first conv block, one block per element of the Python slice
`layer_filters[1:(len(layer_filters)-1)]` (each of which applies
`Conv2D`, `ZeroPadding2D`, `LeakyReLU`, `Dropout`, `BatchNormalization`
in that order), the final conv block, and `Flatten`. -/
def discriminator_recognition_net_layers (layer_filters : List ℕ) : List LayerTag :=
  [LayerTag.conv2d (layer_filters.getD 0 0) 2, LayerTag.leakyRelu, LayerTag.dropout]
  ++ (((layer_filters.drop 1).take (layer_filters.length - 2)).map
      (fun f => [LayerTag.conv2d f 2, LayerTag.zeroPad, LayerTag.leakyRelu,
                 LayerTag.dropout, LayerTag.batchNorm])).flatten
  ++ [LayerTag.conv2d (layer_filters.getD (layer_filters.length - 1) 0) 2,
      LayerTag.leakyRelu, LayerTag.dropout, LayerTag.batchNorm, LayerTag.flatten]

/-- Whether each `zeroPad` in a layer list is immediately preceded by a
`dropout` — the within-stage placement the specification asserts for
zero-padding ("appended" to `conv → leaky-relu → dropout`).  The first
element is never preceded by anything. -/
def zeroPadAfterDropout (ls : List LayerTag) : Bool :=
  (match ls.head? with
   | some LayerTag.zeroPad => false
   | _ => true)
  && (List.zip ls (ls.drop 1)).all
      (fun p => p.2 ≠ LayerTag.zeroPad || p.1 = LayerTag.dropout)

/-- The trunk layer order as the specification's bracket notation reads:
each stage `conv → leaky-relu → dropout`, with `zero-pad → batch-norm`
appended in the bracketed (second and third) stages, then `Flatten`. -/
def spec_claimed_trunk_layers : List LayerTag :=
  [LayerTag.conv2d 64 2, LayerTag.leakyRelu, LayerTag.dropout,
   LayerTag.conv2d 128 2, LayerTag.leakyRelu, LayerTag.dropout,
   LayerTag.zeroPad, LayerTag.batchNorm,
   LayerTag.conv2d 256 2, LayerTag.leakyRelu, LayerTag.dropout,
   LayerTag.zeroPad, LayerTag.batchNorm,
   LayerTag.flatten]

/-- The full layer sequence of `discriminator_model`: one fresh trunk
instance followed by `Dense(self.channels, activation="sigmoid")`. -/
def discriminator_model_layers : List LayerTag :=
  discriminator_recognition_net_layers [64, 128, 256]
  ++ [LayerTag.dense channels, LayerTag.actSigmoid]

/-- The full layer sequence of `recognition_model`: one fresh trunk instance
followed by `Dense(128, activation="relu")` and
`Dense(self.num_classes, activation="softmax")`. -/
def recognition_model_layers : List LayerTag :=
  discriminator_recognition_net_layers [64, 128, 256]
  ++ [LayerTag.dense 128, LayerTag.actRelu,
      LayerTag.dense num_classes, LayerTag.actSoftmax]

/-- The full layer sequence of `generator_model` (its loop unrolled at the
default `layer_filters=[256, 128, 64]`). -/
def generator_model_layers : List LayerTag :=
  [LayerTag.dense 1024, LayerTag.actRelu, LayerTag.batchNorm,
   LayerTag.dense 7168, LayerTag.actRelu, LayerTag.reshape, LayerTag.batchNorm,
   LayerTag.upSampling, LayerTag.conv2d 256 1, LayerTag.actRelu, LayerTag.batchNorm,
   LayerTag.upSampling, LayerTag.conv2d 128 1, LayerTag.actRelu, LayerTag.batchNorm,
   LayerTag.upSampling, LayerTag.conv2d 64 1, LayerTag.actRelu, LayerTag.batchNorm,
   LayerTag.conv2d channels 1, LayerTag.actTanh]

/-- Whether a layer owns trainable weight variables. -/
def layerHasWeights : LayerTag → Bool
  | LayerTag.conv2d _ _ => true
  | LayerTag.batchNorm => true
  | LayerTag.dense _ => true
  | _ => false

/-- The number of weight variables a layer list owns. -/
def numWeights (ls : List LayerTag) : ℕ := (ls.filter layerHasWeights).length

/-- Building a model allocates one fresh id per weight variable, starting at
`k`; the result is the model's id list together with the next free id. -/
def build_model (ls : List LayerTag) (k : ℕ) : List ℕ × ℕ :=
  ((List.range (numWeights ls)).map (fun i => k + i), k + numWeights ls)

/-- Weight ids allocated to `self.discriminator` — `__init__` builds the
discriminator first. -/
def discriminator_weightIds : List ℕ := (build_model discriminator_model_layers 0).1

/-- Weight ids allocated to `self.recognition`, built second. -/
def recognition_weightIds : List ℕ :=
  (build_model recognition_model_layers (build_model discriminator_model_layers 0).2).1

/-- Weight ids allocated to `self.generator`, built third. -/
def generator_weightIds : List ℕ :=
  (build_model generator_model_layers
    (build_model recognition_model_layers
      (build_model discriminator_model_layers 0).2).2).1

/-- An optimizer step over a weight store: the weights whose ids lie in
`ids` move by `δ`, every other weight is untouched. -/
def updateWeights (store : ℕ → ℝ) (ids : List ℕ) (δ : ℕ → ℝ) : ℕ → ℝ :=
  fun n => if n ∈ ids then store n + δ n else store n

/-- Line 51 of the source: `self.discriminator.trainable = True`.  The
discriminator is explicitly left trainable just before the combined model is
built and compiled. -/
def discriminator_trainable_at_combined_build : Bool := true

/-- The recognition network's `trainable` flag is never modified anywhere in
the source; Keras models are trainable by default. -/
def recognition_trainable_at_combined_build : Bool := true

/-- The weight ids the combined model captures as trainable when it is
compiled: the generator's, plus those of each stacked submodel whose
`trainable` flag is set at compile time. -/
def combined_trainable_weightIds : List ℕ :=
  generator_weightIds
  ++ (if discriminator_trainable_at_combined_build then discriminator_weightIds else [])
  ++ (if recognition_trainable_at_combined_build then recognition_weightIds else [])

/-- One `self.combined.train_on_batch(...)` optimizer step on the weight
store. -/
def combined_train_step (store : ℕ → ℝ) (δ : ℕ → ℝ) : ℕ → ℝ :=
  updateWeights store combined_trainable_weightIds δ

/- ### Helper lemmas -/

/-- The real hyperbolic tangent is strictly below `1`. -/
theorem tanh_lt_one_real (x : ℝ) : Real.tanh x < 1 := by
  rw [Real.tanh_eq_sinh_div_cosh, div_lt_one (Real.cosh_pos x)]
  exact Real.sinh_lt_cosh x

/-- The real hyperbolic tangent is strictly above `-1`. -/
theorem neg_one_lt_tanh_real (x : ℝ) : -1 < Real.tanh x := by
  have h := tanh_lt_one_real (-x)
  rw [Real.tanh_neg] at h
  linarith

/-- The sigmoid takes values strictly between `0` and `1`. -/
theorem sigmoid_mem_Ioo (x : ℝ) : sigmoid x ∈ Set.Ioo (0 : ℝ) 1 := by
  have he : 0 < Real.exp (-x) := Real.exp_pos _
  unfold sigmoid
  constructor
  · exact div_pos one_pos (by linarith)
  · rw [div_lt_one (by linarith)]
    linarith

/- ### C1 -/

/-- C1: `mutual_info_loss`, applied to a sampled code batch `c` and a
predicted distribution batch `c_given_x`, equals exactly
`mean(-sum(log(c_given_x+eps)*c, axis=1)) + mean(-sum(log(c+eps)*c, axis=1))`
with `eps = 1e-8`: the epsilon-stabilized conditional entropy `H(c|x)` plus
the epsilon-stabilized entropy `H(c)`, exactly as the specification writes
the formula. -/
theorem mutual_info_loss_eq_spec_formula (c c_given_x : List (List ℝ)) :
    mutual_info_loss c c_given_x = spec_mutual_info_formula c c_given_x := by
  have inner : ∀ (cr xr : List ℝ),
      -(List.zipWith (fun x y => Real.log (x + 1e-8) * y) xr cr).sum
        = -(List.zipWith (fun cj xj => Real.log (xj + 1e-8) * cj) cr xr).sum := by
    intro cr xr
    rw [List.zipWith_comm]
  have inner2 : ∀ (cr : List ℝ),
      List.zipWith (fun x y => Real.log (x + 1e-8) * y) cr cr
        = cr.map (fun cj => Real.log (cj + 1e-8) * cj) := by
    intro cr
    rw [List.zipWith_same]
  simp only [mutual_info_loss, spec_mutual_info_formula, negSumLogMul]
  congr 1
  · rw [List.zipWith_comm]
    simp only [inner]
  · rw [List.zipWith_same]
    simp only [inner2]

/- ### C6 -/

/-- C6: each training iteration performs exactly, and in this order: sample a
real batch, sample (noise, one-hot label) pairs, generate fakes, update the
discriminator on reals (target `valid`) and then on fakes (target `fake`),
report the average of the two losses, update generator and recognition
jointly through the combined model, and render a sample grid exactly when
the epoch index is a multiple of the sample interval.  The reported value is
the elementwise average of the two discriminator losses, and the targets are
the all-ones and all-zeros arrays. -/
theorem trainIteration_matches_spec (epoch sample_interval : ℕ) :
    trainIterationEvents epoch sample_interval
      = specIterationEvents epoch sample_interval
    ∧ (∀ r f : List ℝ, d_loss r f = List.zipWith (fun a b => (a + b) / 2) r f)
    ∧ (∀ B : ℕ, validArr B = List.replicate B (List.replicate channels 1)
        ∧ fakeArr B = List.replicate B (List.replicate channels 0)) := by
  refine ⟨?_, ?_, fun B => ⟨rfl, rfl⟩⟩
  · unfold trainIterationEvents specIterationEvents
    congr 1
    by_cases h : epoch % sample_interval = 0
    · rw [if_pos h, if_pos (Nat.dvd_of_mod_eq_zero h)]
    · rw [if_neg h, if_neg ?_]
      intro hd
      obtain ⟨k, rfl⟩ := hd
      exact h (Nat.mul_mod_right sample_interval k)
  · intro r f
    unfold d_loss
    congr 1
    funext a b
    ring

/- ### C10 -/

/-- C10: `save_model` persists the architecture JSON and the weight file for
exactly two models — the generator and the discriminator, at the fixed paths
— and persists neither the recognition network nor the combined model, so
the recognition network's trained weights cannot be reconstructed from the
saved artifacts. -/
theorem save_model_saves_only_generator_and_discriminator :
    save_model =
      [("generator", ("infoGANs/saved_model/generator.json",
                      "infoGANs/saved_model/generator_weights.hdf5")),
       ("discriminator", ("infoGANs/saved_model/discriminator.json",
                          "infoGANs/saved_model/discriminator_weights.hdf5"))]
    ∧ save_model.map Prod.fst = ["generator", "discriminator"]
    ∧ (save_model.map Prod.fst).contains "recognition" = false
    ∧ (save_model.map Prod.fst).contains "combined" = false := by
  refine ⟨rfl, rfl, ?_, ?_⟩ <;> decide

/- ### C2 -/

/-- C2 (code evidence): the source sets `self.discriminator.trainable = True`
on line 51 and never clears the recognition network's `trainable` flag, so
when the combined model is compiled every discriminator and recognition
weight id is among its trainable weights, and a combined
`train_on_batch` step moves a discriminator weight (id `0`, here from value
`0` to `1`): the discriminator and recognition weights are not held fixed
during the combined model's update. -/
theorem combined_step_updates_discriminator_weights :
    discriminator_trainable_at_combined_build = true
    ∧ recognition_trainable_at_combined_build = true
    ∧ discriminator_weightIds.all
        (fun n => combined_trainable_weightIds.contains n) = true
    ∧ recognition_weightIds.all
        (fun n => combined_trainable_weightIds.contains n) = true
    ∧ 0 ∈ discriminator_weightIds
    ∧ combined_train_step (fun _ => (0 : ℝ)) (fun _ => 1) 0 = 1 := by
  refine ⟨rfl, rfl, by decide, by decide, by decide, ?_⟩
  unfold combined_train_step updateWeights
  rw [if_pos (by decide : (0 : ℕ) ∈ combined_trainable_weightIds)]
  norm_num

/- ### C5 -/

/-- C5: for every weight assignment, batch size and 134-dimensional input
batch, the generator output is a `(B, 32, 32, 3)` tensor (the result type of
`generator_predict`) and every output value lies in the closed interval
`[-1, 1]`, because the final layer is a convolution to `channels = 3`
channels followed by a `tanh` activation. -/
theorem generator_output_in_Icc (gw : GenWeights) (B : ℕ)
    (batch : Fin B → Tensor1 134) (b : Fin B) (i j : Fin 32) (k : Fin 3) :
    generator_predict gw batch b i j k ∈ Set.Icc (-1 : ℝ) 1 := by
  show Real.tanh _ ∈ Set.Icc (-1 : ℝ) 1
  exact Set.mem_Icc.mpr ⟨(neg_one_lt_tanh_real _).le, (tanh_lt_one_real _).le⟩

/- ### C7 -/

/-- C7: the discriminator's output layer is a sigmoid dense layer with
`channels = 3` output units per example — more than a single scalar, each
unit a strict sigmoid value in `(0, 1)` — and the training loop's
adversarial ground truths `valid` (ones) and `fake` (zeros) are built with
the matching shape `(batch_size, channels)`. -/
theorem discriminator_head_channels_and_targets :
    channels = 3
    ∧ 1 < channels
    ∧ (∀ (dw : DiscWeights) (img : Tensor3 32 32 3) (k : Fin channels),
        discriminator_forward dw img k ∈ Set.Ioo (0 : ℝ) 1)
    ∧ (∀ B : ℕ, (validArr B).map List.length = List.replicate B channels
        ∧ (fakeArr B).map List.length = List.replicate B channels
        ∧ (validArr B).length = B
        ∧ (fakeArr B).length = B) := by
  refine ⟨rfl, by norm_num [channels], ?_, ?_⟩
  · intro dw img k
    exact sigmoid_mem_Ioo _
  · intro B
    refine ⟨?_, ?_, ?_, ?_⟩ <;>
      simp [validArr, fakeArr, List.map_replicate]

/- ### C8 -/

/-- C8 (counterexample): the trunk the code actually builds violates the
claimed within-stage order: its `ZeroPadding2D` is not appended after the
stage's dropout (it sits immediately after the middle `Conv2D`, before the
`LeakyReLU`), and the full sequence differs from the claimed
`conv → leaky-relu → dropout [→ zero-pad → batch-norm]` reading. -/
theorem trunk_layers_ne_claimed :
    zeroPadAfterDropout (discriminator_recognition_net_layers [64, 128, 256]) = false
    ∧ (discriminator_recognition_net_layers [64, 128, 256]
        == spec_claimed_trunk_layers) = false := by
  refine ⟨?_, ?_⟩ <;> decide

/-- C8 (amended): for filter sizes 64, 128, 256 with strided downsampling at
each convolution, the trunk consists of `Conv2D(64) → LeakyReLU → Dropout`,
then `Conv2D(128) → ZeroPadding2D → LeakyReLU → Dropout → BatchNorm`, then
`Conv2D(256) → LeakyReLU → Dropout → BatchNorm`, followed by `Flatten`:
zero-padding occurs only in the middle stage, immediately after its
convolution, and batch-normalization closes the second and third stages
only. -/
theorem trunk_layers_exact :
    discriminator_recognition_net_layers [64, 128, 256] =
      [LayerTag.conv2d 64 2, LayerTag.leakyRelu, LayerTag.dropout,
       LayerTag.conv2d 128 2, LayerTag.zeroPad, LayerTag.leakyRelu,
       LayerTag.dropout, LayerTag.batchNorm,
       LayerTag.conv2d 256 2, LayerTag.leakyRelu, LayerTag.dropout,
       LayerTag.batchNorm, LayerTag.flatten] := by
  decide

/- ### C9 -/

/-- C9: the discriminator and the recognition network each contain their own
independently constructed trunk instance — both model layer lists begin with
the very same trunk topology `discriminator_recognition_net_layers
[64, 128, 256]` — but their weight-id sets are disjoint, so an optimizer
update touching only one model's weights leaves every weight of the other
unchanged. -/
theorem discriminator_recognition_no_weight_sharing :
    discriminator_model_layers
      = discriminator_recognition_net_layers [64, 128, 256]
        ++ [LayerTag.dense channels, LayerTag.actSigmoid]
    ∧ recognition_model_layers
      = discriminator_recognition_net_layers [64, 128, 256]
        ++ [LayerTag.dense 128, LayerTag.actRelu,
            LayerTag.dense num_classes, LayerTag.actSoftmax]
    ∧ discriminator_weightIds.all
        (fun n => !recognition_weightIds.contains n) = true
    ∧ (∀ (store δ : ℕ → ℝ) (n : ℕ), n ∈ recognition_weightIds →
        updateWeights store discriminator_weightIds δ n = store n)
    ∧ (∀ (store δ : ℕ → ℝ) (n : ℕ), n ∈ discriminator_weightIds →
        updateWeights store recognition_weightIds δ n = store n) := by
  have hdisj : ∀ m ∈ discriminator_weightIds, m ∉ recognition_weightIds := by decide
  refine ⟨rfl, rfl, by decide, ?_, ?_⟩
  · intro store δ n hn
    unfold updateWeights
    rw [if_neg]
    intro hmem
    exact hdisj n hmem hn
  · intro store δ n hn
    unfold updateWeights
    rw [if_neg]
    intro hmem
    exact hdisj n hn hmem

/-- Witness for `discriminator_recognition_no_weight_sharing`: id `6` belongs
to the recognition network, and a discriminator-only update leaves weight `6`
of the zero store unchanged. -/
theorem discriminator_recognition_no_weight_sharing_witness :
    (6 ∈ recognition_weightIds)
    ∧ updateWeights (fun _ => (0 : ℝ)) discriminator_weightIds (fun _ => 1) 6 = 0 :=
  ⟨by decide,
   discriminator_recognition_no_weight_sharing.2.2.2.1
     (fun _ => (0 : ℝ)) (fun _ => 1) 6 (by decide)⟩

/- ### C4 -/

/-- A `to_categorical` row is exactly one-hot whenever the label is in
range. -/
theorem to_categorical_exactlyOneHot (n y : ℕ) (hy : y < n) :
    exactlyOneHot (to_categorical n y) := by
  have hlen : (to_categorical n y).length = n := by simp [to_categorical]
  refine ⟨y, by rw [hlen]; exact hy, ?_, ?_⟩
  · simp [to_categorical, List.get_eq_getElem]
  · intro j hj hjy
    simp [to_categorical, List.get_eq_getElem, hjy]

/-- Row lengths of a rowwise concatenation add. -/
theorem np_concat_axis1_lengths : ∀ (a b : List (List ℝ)),
    (np_concat_axis1 a b).map List.length
      = List.zipWith (fun x y => x + y) (a.map List.length) (b.map List.length) := by
  intro a
  induction a with
  | nil => intro b; rfl
  | cons r t ih =>
    intro b
    cases b with
    | nil => rfl
    | cons s u =>
      show ((r ++ s).length :: (np_concat_axis1 t u).map List.length)
          = (r.length + s.length)
            :: List.zipWith (fun x y => x + y) (t.map List.length) (u.map List.length)
      rw [List.length_append, ih u]

/-- C4: for every batch size `B` and all sampled randomness,
`sample_generator_input` (at its default `noise_variable = 124`) returns a
noise matrix of shape `(B, 124)` and a categorical code matrix of shape
`(B, num_classes = 10)` whose every row is exactly one-hot (one entry `1`,
all others `0`); their rowwise concatenation has `B` rows of length
`latent_dim = 134`, the generator's declared input dimension. -/
theorem sample_generator_input_shapes (noiseRand : ℕ → ℕ → ℝ) (labelRand : ℕ → ℕ)
    (B : ℕ) :
    ((sample_generator_input noiseRand labelRand B 124).1.map List.length
       = List.replicate B 124)
    ∧ ((sample_generator_input noiseRand labelRand B 124).2.map List.length
       = List.replicate B num_classes)
    ∧ (∀ row ∈ (sample_generator_input noiseRand labelRand B 124).2, exactlyOneHot row)
    ∧ ((np_concat_axis1 (sample_generator_input noiseRand labelRand B 124).1
          (sample_generator_input noiseRand labelRand B 124).2).map List.length
       = List.replicate B latent_dim)
    ∧ 124 + num_classes = latent_dim := by
  have h1 : (sample_generator_input noiseRand labelRand B 124).1.map List.length
      = List.replicate B 124 := by
    simp [sample_generator_input, List.map_map, Function.comp_def, List.map_const']
  have h2 : (sample_generator_input noiseRand labelRand B 124).2.map List.length
      = List.replicate B num_classes := by
    simp [sample_generator_input, List.map_map, Function.comp_def, to_categorical,
      List.map_const']
  refine ⟨h1, h2, ?_, ?_, rfl⟩
  · intro row hrow
    simp only [sample_generator_input, List.mem_map] at hrow
    obtain ⟨i, hi, rfl⟩ := hrow
    exact to_categorical_exactlyOneHot num_classes (labelRand i % num_classes)
      (Nat.mod_lt _ (by norm_num [num_classes]))
  · rw [np_concat_axis1_lengths, h1, h2, List.zipWith_replicate']
    rfl

/-- Witness for `sample_generator_input_shapes`: with one sampled label `3`
at batch size `1`, the returned label row is exactly one-hot. -/
theorem sample_generator_input_shapes_witness :
    exactlyOneHot (to_categorical num_classes (3 % num_classes)) := by
  refine (sample_generator_input_shapes (fun _ _ => 0) (fun _ => 3) 1).2.2.1 _ ?_
  exact List.mem_map.mpr ⟨0, by simp, rfl⟩

/- ### C3: auxiliary list and mean lemmas -/

/-- A list of non-negative reals summing to zero is all zeros. -/
theorem all_zero_of_sum_eq_zero : ∀ (l : List ℝ), (∀ x ∈ l, 0 ≤ x) → l.sum = 0 →
    ∀ x ∈ l, x = 0 := by
  intro l
  induction l with
  | nil => intro _ _ x hx; exact absurd hx (List.not_mem_nil x)
  | cons a t ih =>
    intro h0 hs x hx
    have ha : 0 ≤ a := h0 a (List.mem_cons_self a t)
    have ht0 : ∀ y ∈ t, 0 ≤ y := fun y hy => h0 y (List.mem_cons_of_mem a hy)
    have ht : 0 ≤ t.sum := List.sum_nonneg ht0
    have hsum : a + t.sum = 0 := by simpa using hs
    rcases List.mem_cons.mp hx with rfl | hx
    · linarith
    · exact ih ht0 (by linarith) x hx

/-- Two lists of the same length whose aligned pairs agree are equal. -/
theorem eq_of_zip_forall_eq {α : Type} : ∀ (x y : List α), x.length = y.length →
    (∀ p ∈ x.zip y, p.1 = p.2) → x = y := by
  intro x
  induction x with
  | nil =>
    intro y hlen _
    cases y with
    | nil => rfl
    | cons b u => simp at hlen
  | cons a t ih =>
    intro y hlen hp
    cases y with
    | nil => simp at hlen
    | cons b u =>
      have hab : a = b := hp (a, b) (by simp [List.zip_cons_cons])
      have ht : t = u := ih u (by simpa using hlen)
        (fun p hmem => hp p (by simp only [List.zip_cons_cons, List.mem_cons]; exact Or.inr hmem))
      rw [hab, ht]

/-- The sum of aligned differences is the difference of the sums. -/
theorem zip_map_sub_sum : ∀ (x y : List ℝ), x.length = y.length →
    ((x.zip y).map (fun p => p.1 - p.2)).sum = x.sum - y.sum := by
  intro x
  induction x with
  | nil =>
    intro y hlen
    cases y with
    | nil => simp
    | cons b u => simp at hlen
  | cons a t ih =>
    intro y hlen
    cases y with
    | nil => simp at hlen
    | cons b u =>
      simp only [List.zip_cons_cons, List.map_cons, List.sum_cons]
      rw [ih u (by simpa using hlen)]
      ring

/-- Every member of a self-zip is a diagonal pair. -/
theorem mem_zip_self {α : Type} : ∀ (l : List α) (a : α), a ∈ l → (a, a) ∈ l.zip l := by
  intro l
  induction l with
  | nil => intro a ha; simp at ha
  | cons x t ih =>
    intro a ha
    rcases List.mem_cons.mp ha with rfl | ha
    · simp [List.zip_cons_cons]
    · simp only [List.zip_cons_cons, List.mem_cons]
      exact Or.inr (ih a ha)

/-- Any element of a `zipWith` image comes from members of the two lists. -/
theorem mem_zipWith_decomp {α β γ : Type} (g : α → β → γ) :
    ∀ (as : List α) (bs : List β) (z : γ), z ∈ List.zipWith g as bs →
      ∃ a ∈ as, ∃ b ∈ bs, z = g a b := by
  intro as
  induction as with
  | nil => intro bs z hz; simp at hz
  | cons a t ih =>
    intro bs z hz
    cases bs with
    | nil => simp at hz
    | cons b u =>
      rcases List.mem_cons.mp (by simpa only [List.zipWith_cons_cons] using hz) with h | h
      · exact ⟨a, List.mem_cons_self a t, b, List.mem_cons_self b u, h⟩
      · obtain ⟨a', ha', b', hb', rfl⟩ := ih u z h
        exact ⟨a', List.mem_cons_of_mem a ha', b', List.mem_cons_of_mem b hb', rfl⟩

/-- A lower bound on all elements bounds the sum against the length. -/
theorem mul_length_le_sum : ∀ (v : List ℝ) (m : ℝ), (∀ x ∈ v, m ≤ x) →
    m * v.length ≤ v.sum := by
  intro v
  induction v with
  | nil => intro m _; simp
  | cons a t ih =>
    intro m h
    have h1 : m ≤ a := h a (List.mem_cons_self a t)
    have h2 := ih m (fun x hx => h x (List.mem_cons_of_mem a hx))
    simp only [List.sum_cons, List.length_cons]
    have hcast : ((t.length + 1 : ℕ) : ℝ) = (t.length : ℝ) + 1 := by push_cast; ring
    rw [hcast]
    have hexp : m * ((t.length : ℝ) + 1) = m * t.length + m := by ring
    rw [hexp]
    linarith

/-- A sum of elements bounded below by `m` hits `m * length` exactly when
every element equals `m`. -/
theorem sum_eq_mul_length_iff : ∀ (v : List ℝ) (m : ℝ), (∀ x ∈ v, m ≤ x) →
    (v.sum = m * v.length ↔ ∀ x ∈ v, x = m) := by
  intro v
  induction v with
  | nil => intro m _; simp
  | cons a t ih =>
    intro m h
    have h1 : m ≤ a := h a (List.mem_cons_self a t)
    have h2 : ∀ x ∈ t, m ≤ x := fun x hx => h x (List.mem_cons_of_mem a hx)
    have hts := mul_length_le_sum t m h2
    simp only [List.sum_cons, List.length_cons]
    have hcast : ((t.length + 1 : ℕ) : ℝ) = (t.length : ℝ) + 1 := by push_cast; ring
    rw [hcast]
    constructor
    · intro he
      have hexp : m * ((t.length : ℝ) + 1) = m * t.length + m := by ring
      rw [hexp] at he
      have ha : a = m := by linarith
      have hts' : t.sum = m * t.length := by linarith
      intro x hx
      rcases List.mem_cons.mp hx with rfl | hx
      · exact ha
      · exact (ih m h2).mp hts' x hx
    · intro hall
      have ha : a = m := hall a (List.mem_cons_self a t)
      have hts' : t.sum = m * t.length :=
        (ih m h2).mpr (fun x hx => hall x (List.mem_cons_of_mem a hx))
      rw [ha, hts']
      ring

/-- The mean of a list whose elements are at least `m ≤ 0` is at least `m`. -/
theorem kMean_ge (m : ℝ) (hm : m ≤ 0) (v : List ℝ) (h : ∀ x ∈ v, m ≤ x) :
    m ≤ kMean v := by
  cases v with
  | nil => simpa [kMean] using hm
  | cons a t =>
    have hlen : (0 : ℝ) < (((a :: t).length : ℕ) : ℝ) := by
      exact_mod_cast Nat.succ_pos t.length
    rw [kMean, le_div_iff₀ hlen]
    exact mul_length_le_sum (a :: t) m h

/-- The mean of a non-empty list with elements at least `m` equals `m`
exactly when all elements equal `m`. -/
theorem kMean_eq_iff (m : ℝ) (v : List ℝ) (hne : v ≠ []) (h : ∀ x ∈ v, m ≤ x) :
    (kMean v = m ↔ ∀ x ∈ v, x = m) := by
  have hlen : (0 : ℝ) < ((v.length : ℕ) : ℝ) := by
    exact_mod_cast List.length_pos.mpr hne
  rw [kMean, div_eq_iff (ne_of_gt hlen)]
  exact sum_eq_mul_length_iff v m h

/- ### C3: row-level bounds for the epsilon-stabilized log terms -/

/-- Pointwise bound: for `0 ≤ a ≤ 1` and `0 ≤ b`,
`log(a+eps)·b ≤ log(1+eps)·b`. -/
theorem logMul_le (eps : ℝ) (heps : 0 < eps) (a b : ℝ) (ha0 : 0 ≤ a) (ha1 : a ≤ 1)
    (hb : 0 ≤ b) : Real.log (a + eps) * b ≤ Real.log (1 + eps) * b := by
  apply mul_le_mul_of_nonneg_right _ hb
  exact Real.log_le_log (by linarith) (by linarith)

/-- Pointwise equality case: `log(a+eps)·b = log(1+eps)·b` holds exactly when
`b = 0` or `a = 1`. -/
theorem logMul_eq_iff (eps : ℝ) (heps : 0 < eps) (a b : ℝ) (ha0 : 0 ≤ a)
    (ha1 : a ≤ 1) (hb : 0 ≤ b) :
    (Real.log (a + eps) * b = Real.log (1 + eps) * b ↔ b = 0 ∨ a = 1) := by
  constructor
  · intro he
    rcases eq_or_lt_of_le hb with hb0 | hbpos
    · exact Or.inl hb0.symm
    · right
      have hlog : Real.log (a + eps) = Real.log (1 + eps) :=
        mul_right_cancel₀ (ne_of_gt hbpos) he
      have e1 := Real.exp_log (show (0 : ℝ) < a + eps by linarith)
      have e2 := Real.exp_log (show (0 : ℝ) < 1 + eps by linarith)
      have h1 : a + eps = 1 + eps := by rw [← e1, ← e2, hlog]
      linarith
  · intro h
    rcases h with rfl | rfl
    · simp
    · rfl

/-- Row bound: the per-row sum `Σ log(xⱼ+eps)·yⱼ` is at most
`log(1+eps)·(Σ yⱼ)` when `x`-entries lie in `[0,1]` and `y`-entries are
non-negative. -/
theorem rowSum_le (eps : ℝ) (heps : 0 < eps) :
    ∀ (x y : List ℝ), (∀ a ∈ x, 0 ≤ a) → (∀ a ∈ x, a ≤ 1) → (∀ b ∈ y, 0 ≤ b) →
    (List.zipWith (fun a b => Real.log (a + eps) * b) x y).sum
      ≤ Real.log (1 + eps) * y.sum := by
  intro x
  induction x with
  | nil =>
    intro y _ _ hy
    simp only [List.zipWith_nil_left, List.sum_nil]
    exact mul_nonneg (Real.log_nonneg (by linarith)) (List.sum_nonneg hy)
  | cons a t ih =>
    intro y hx0 hx1 hy0
    cases y with
    | nil => simp
    | cons b u =>
      simp only [List.zipWith_cons_cons, List.sum_cons]
      have hhead : Real.log (a + eps) * b ≤ Real.log (1 + eps) * b :=
        logMul_le eps heps a b (hx0 a (List.mem_cons_self a t))
          (hx1 a (List.mem_cons_self a t)) (hy0 b (List.mem_cons_self b u))
      have htail := ih u (fun z hz => hx0 z (List.mem_cons_of_mem a hz))
        (fun z hz => hx1 z (List.mem_cons_of_mem a hz))
        (fun z hz => hy0 z (List.mem_cons_of_mem b hz))
      have hexp : Real.log (1 + eps) * (b + u.sum)
          = Real.log (1 + eps) * b + Real.log (1 + eps) * u.sum := by ring
      rw [hexp]
      exact add_le_add hhead htail

/-- Row equality case: the bound of `rowSum_le` is attained exactly when each
aligned pair satisfies `yⱼ = 0` or `xⱼ = 1`. -/
theorem rowSum_eq_iff (eps : ℝ) (heps : 0 < eps) :
    ∀ (x y : List ℝ), x.length = y.length →
    (∀ a ∈ x, 0 ≤ a) → (∀ a ∈ x, a ≤ 1) → (∀ b ∈ y, 0 ≤ b) →
    ((List.zipWith (fun a b => Real.log (a + eps) * b) x y).sum
        = Real.log (1 + eps) * y.sum
      ↔ ∀ p ∈ x.zip y, p.2 = 0 ∨ p.1 = 1) := by
  intro x
  induction x with
  | nil =>
    intro y hlen _ _ _
    cases y with
    | nil => simp
    | cons b u => simp at hlen
  | cons a t ih =>
    intro y hlen hx0 hx1 hy0
    cases y with
    | nil => simp at hlen
    | cons b u =>
      have hx0' : ∀ z ∈ t, 0 ≤ z := fun z hz => hx0 z (List.mem_cons_of_mem a hz)
      have hx1' : ∀ z ∈ t, z ≤ 1 := fun z hz => hx1 z (List.mem_cons_of_mem a hz)
      have hy0' : ∀ z ∈ u, 0 ≤ z := fun z hz => hy0 z (List.mem_cons_of_mem b hz)
      have ha0 : 0 ≤ a := hx0 a (List.mem_cons_self a t)
      have ha1 : a ≤ 1 := hx1 a (List.mem_cons_self a t)
      have hb0 : 0 ≤ b := hy0 b (List.mem_cons_self b u)
      have hhead_le : Real.log (a + eps) * b ≤ Real.log (1 + eps) * b :=
        logMul_le eps heps a b ha0 ha1 hb0
      have htail_le := rowSum_le eps heps t u hx0' hx1' hy0'
      have hlen' : t.length = u.length := by simpa using hlen
      simp only [List.zipWith_cons_cons, List.sum_cons, List.zip_cons_cons]
      constructor
      · intro he
        have hexp : Real.log (1 + eps) * (b + u.sum)
            = Real.log (1 + eps) * b + Real.log (1 + eps) * u.sum := by ring
        rw [hexp] at he
        have hhead_eq : Real.log (a + eps) * b = Real.log (1 + eps) * b := by linarith
        have htail_eq : (List.zipWith (fun a b => Real.log (a + eps) * b) t u).sum
            = Real.log (1 + eps) * u.sum := by linarith
        intro p hp
        rcases List.mem_cons.mp hp with rfl | hp
        · exact (logMul_eq_iff eps heps a b ha0 ha1 hb0).mp hhead_eq
        · exact ((ih u hlen' hx0' hx1' hy0').mp htail_eq) p hp
      · intro hall
        have hhead_eq : Real.log (a + eps) * b = Real.log (1 + eps) * b :=
          (logMul_eq_iff eps heps a b ha0 ha1 hb0).mpr
            (hall (a, b) (List.mem_cons_self _ _))
        have htail_eq := (ih u hlen' hx0' hx1' hy0').mpr
          (fun p hp => hall p (List.mem_cons_of_mem (a, b) hp))
        rw [hhead_eq, htail_eq]
        ring

/-- A row equal in aligned pairs to a one-hot row under the
`yⱼ = 0 ∨ xⱼ = 1` condition coincides with it. -/
theorem row_eq_of_pairs (x y : List ℝ) (hlen : x.length = y.length)
    (hx0 : ∀ a ∈ x, 0 ≤ a) (hxsum : x.sum = 1)
    (hy01 : ∀ b ∈ y, b = 0 ∨ b = 1) (hysum : y.sum = 1)
    (hp : ∀ p ∈ x.zip y, p.2 = 0 ∨ p.1 = 1) : x = y := by
  have hdiff0 : ∀ d ∈ (x.zip y).map (fun p => p.1 - p.2), 0 ≤ d := by
    intro d hd
    obtain ⟨⟨p1, p2⟩, hpmem, rfl⟩ := List.mem_map.mp hd
    have hmem := List.of_mem_zip hpmem
    rcases hp _ hpmem with h2 | h1
    · simp only at h2
      rw [h2]
      simpa using hx0 p1 hmem.1
    · simp only at h1
      rw [h1]
      rcases hy01 p2 hmem.2 with rfl | rfl <;> norm_num
  have hsum0 : ((x.zip y).map (fun p => p.1 - p.2)).sum = 0 := by
    rw [zip_map_sub_sum x y hlen, hxsum, hysum]
    ring
  have hall0 := all_zero_of_sum_eq_zero _ hdiff0 hsum0
  apply eq_of_zip_forall_eq x y hlen
  intro p hpmem
  have hd := hall0 (p.1 - p.2) (List.mem_map.mpr ⟨p, hpmem, rfl⟩)
  linarith

/-- On a row with entries in `{0,1}`, the stabilized self-entropy sum
collapses to `log(1+eps)` times the row sum. -/
theorem row_ent_eq (eps : ℝ) : ∀ (p : List ℝ), (∀ a ∈ p, a = 0 ∨ a = 1) →
    (List.zipWith (fun x y => Real.log (x + eps) * y) p p).sum
      = Real.log (1 + eps) * p.sum := by
  intro p
  induction p with
  | nil => intro _; simp
  | cons a t ih =>
    intro h01
    simp only [List.zipWith_cons_cons, List.sum_cons]
    rw [ih (fun z hz => h01 z (List.mem_cons_of_mem a hz))]
    have ha : Real.log (a + eps) * a = Real.log (1 + eps) * a := by
      rcases h01 a (List.mem_cons_self a t) with rfl | rfl
      · simp
      · rfl
    rw [ha]
    ring

/- ### C3: batch-level bound and equality case -/

/-- Every element of the conditional-entropy list of a pair of valid batches
is at least `-log(1+eps)`. -/
theorem cond_elems_ge (eps : ℝ) (heps : 0 < eps) (c cx : List (List ℝ))
    (hc : isDistBatch c) (hcx : isDistBatch cx) :
    ∀ z ∈ List.zipWith (fun xr yr => negSumLogMul eps xr yr) cx c,
      -(Real.log (1 + eps)) ≤ z := by
  intro z hz
  obtain ⟨xr, hxr, yr, hyr, rfl⟩ := mem_zipWith_decomp _ cx c z hz
  have hxv := hcx xr hxr
  have hyv := hc yr hyr
  have hx1 : ∀ a ∈ xr, a ≤ 1 := by
    intro a ha
    have h := List.single_le_sum hxv.1 a ha
    rw [hxv.2] at h
    exact h
  have hb := rowSum_le eps heps xr yr hxv.1 hx1 hyv.1
  rw [hyv.2, mul_one] at hb
  simp only [negSumLogMul]
  linarith

/-- When all aligned conditional terms attain the minimum and every code row
is one-hot, the predicted batch coincides with the code batch. -/
theorem rows_eq_of_cond_const (eps : ℝ) (heps : 0 < eps) :
    ∀ (c cx : List (List ℝ)), List.Forall₂ (fun r s => r.length = s.length) c cx →
    isDistBatch c → isDistBatch cx → (∀ row ∈ c, isOneHot row) →
    (∀ z ∈ List.zipWith (fun xr yr => negSumLogMul eps xr yr) cx c,
        z = -(Real.log (1 + eps))) →
    cx = c := by
  intro c cx hlen
  induction hlen with
  | nil => intro _ _ _ _; rfl
  | @cons p q t u hpq htu ih =>
    intro hc hcx honehot hall
    simp only [List.zipWith_cons_cons] at hall
    have hhead : negSumLogMul eps q p = -(Real.log (1 + eps)) :=
      hall _ (List.mem_cons_self _ _)
    have hpv : isDistRow p := hc p (List.mem_cons_self p t)
    have hqv : isDistRow q := hcx q (List.mem_cons_self q u)
    have hpoh : isOneHot p := honehot p (List.mem_cons_self p t)
    have hq1 : ∀ a ∈ q, a ≤ 1 := by
      intro a ha
      have h := List.single_le_sum hqv.1 a ha
      rw [hqv.2] at h
      exact h
    have hS : (List.zipWith (fun x y => Real.log (x + eps) * y) q p).sum
        = Real.log (1 + eps) * p.sum := by
      simp only [negSumLogMul] at hhead
      rw [hpv.2, mul_one]
      linarith
    have hpairs := (rowSum_eq_iff eps heps q p hpq.symm hqv.1 hq1 hpv.1).mp hS
    have hqp : q = p := row_eq_of_pairs q p hpq.symm hqv.1 hqv.2 hpoh.1 hpoh.2 hpairs
    have htail : u = t := ih (fun r hr => hc r (List.mem_cons_of_mem p hr))
      (fun r hr => hcx r (List.mem_cons_of_mem q hr))
      (fun r hr => honehot r (List.mem_cons_of_mem p hr))
      (fun z hz => hall z (List.mem_cons_of_mem _ hz))
    rw [hqp, htail]

/-- C3 (amended): for all valid same-shaped probability batches `c` and
`c_given_x` with at least one row, the mutual information loss is bounded
below by `-2·log(1 + 1e-8)` — a strictly negative constant of magnitude about
`2·10⁻⁸`, not by `0` — and this minimum is attained exactly when every row of
`c` is one-hot and `c_given_x` equals `c`.  In particular the loss is
strictly negative, not zero, at identical one-hot inputs. -/
theorem mutual_info_loss_lower_bound (c cx : List (List ℝ))
    (hc : isDistBatch c) (hcx : isDistBatch cx)
    (hlen : List.Forall₂ (fun r s => r.length = s.length) c cx)
    (hne : c ≠ []) :
    (-(2 * Real.log (1 + 1e-8)) ≤ mutual_info_loss c cx)
    ∧ (mutual_info_loss c cx = -(2 * Real.log (1 + 1e-8))
        ↔ ((∀ row ∈ c, isOneHot row) ∧ cx = c)) := by
  have heps : (0 : ℝ) < 1e-8 := by norm_num
  have hL : 0 < Real.log (1 + 1e-8) := Real.log_pos (by norm_num)
  simp only [mutual_info_loss]
  have hcond_ge := cond_elems_ge 1e-8 heps c cx hc hcx
  have hent_ge := cond_elems_ge 1e-8 heps c c hc hc
  have h1 : -(Real.log (1 + 1e-8))
      ≤ kMean (List.zipWith (fun xr yr => negSumLogMul 1e-8 xr yr) cx c) :=
    kMean_ge _ (by linarith) _ hcond_ge
  have h2 : -(Real.log (1 + 1e-8))
      ≤ kMean (List.zipWith (fun xr yr => negSumLogMul 1e-8 xr yr) c c) :=
    kMean_ge _ (by linarith) _ hent_ge
  have hclen : 0 < c.length := List.length_pos.mpr hne
  have hcxlen : cx.length = c.length := (List.Forall₂.length_eq hlen).symm
  have hcond_ne : List.zipWith (fun xr yr => negSumLogMul 1e-8 xr yr) cx c ≠ [] := by
    apply List.length_pos.mp
    rw [List.length_zipWith, hcxlen, min_self]
    exact hclen
  have hent_ne : List.zipWith (fun xr yr => negSumLogMul 1e-8 xr yr) c c ≠ [] := by
    apply List.length_pos.mp
    rw [List.length_zipWith, min_self]
    exact hclen
  constructor
  · linarith
  · constructor
    · intro he
      have hcondeq : kMean (List.zipWith (fun xr yr => negSumLogMul 1e-8 xr yr) cx c)
          = -(Real.log (1 + 1e-8)) := by linarith
      have henteq : kMean (List.zipWith (fun xr yr => negSumLogMul 1e-8 xr yr) c c)
          = -(Real.log (1 + 1e-8)) := by linarith
      have hallcond := (kMean_eq_iff _ _ hcond_ne hcond_ge).mp hcondeq
      have hallent := (kMean_eq_iff _ _ hent_ne hent_ge).mp henteq
      have honehot : ∀ row ∈ c, isOneHot row := by
        intro p hp
        have hz : negSumLogMul 1e-8 p p = -(Real.log (1 + 1e-8)) := by
          apply hallent
          rw [List.zipWith_same]
          exact List.mem_map_of_mem _ hp
        have hpv := hc p hp
        have hp1 : ∀ a ∈ p, a ≤ 1 := by
          intro a ha
          have h := List.single_le_sum hpv.1 a ha
          rw [hpv.2] at h
          exact h
        have hS : (List.zipWith (fun x y => Real.log (x + 1e-8) * y) p p).sum
            = Real.log (1 + 1e-8) * p.sum := by
          simp only [negSumLogMul] at hz
          rw [hpv.2, mul_one]
          linarith
        have hpairs := (rowSum_eq_iff 1e-8 heps p p rfl hpv.1 hp1 hpv.1).mp hS
        refine ⟨?_, hpv.2⟩
        intro a ha
        exact hpairs (a, a) (mem_zip_self p a ha)
      exact ⟨honehot,
        rows_eq_of_cond_const 1e-8 heps c cx hlen hc hcx honehot hallcond⟩
    · rintro ⟨honehot, rfl⟩
      have hallent : ∀ z ∈ List.zipWith (fun xr yr => negSumLogMul 1e-8 xr yr) cx cx,
          z = -(Real.log (1 + 1e-8)) := by
        intro z hz
        rw [List.zipWith_same] at hz
        obtain ⟨p, hp, rfl⟩ := List.mem_map.mp hz
        have hrow := row_ent_eq 1e-8 p (honehot p hp).1
        simp only [negSumLogMul]
        rw [hrow, (honehot p hp).2, mul_one]
      have hmean : kMean (List.zipWith (fun xr yr => negSumLogMul 1e-8 xr yr) cx cx)
          = -(Real.log (1 + 1e-8)) :=
        (kMean_eq_iff _ _ hent_ne hent_ge).mpr hallent
      rw [hmean]
      ring

/-- Witness for `mutual_info_loss_lower_bound` at the valid one-hot batch
`[[1,0,0,0,0,0,0,0,0,0]]` used for both arguments. -/
theorem mutual_info_loss_lower_bound_witness :
    isDistBatch [[(1 : ℝ), 0, 0, 0, 0, 0, 0, 0, 0, 0]]
    ∧ -(2 * Real.log (1 + 1e-8))
      ≤ mutual_info_loss [[(1 : ℝ), 0, 0, 0, 0, 0, 0, 0, 0, 0]]
          [[(1 : ℝ), 0, 0, 0, 0, 0, 0, 0, 0, 0]] := by
  have hdist : isDistBatch [[(1 : ℝ), 0, 0, 0, 0, 0, 0, 0, 0, 0]] := by
    intro row hrow
    simp only [List.mem_singleton] at hrow
    subst hrow
    constructor
    · intro x hx
      fin_cases hx <;> norm_num
    · norm_num
  have hf : List.Forall₂ (fun r s => r.length = s.length)
      [[(1 : ℝ), 0, 0, 0, 0, 0, 0, 0, 0, 0]]
      [[(1 : ℝ), 0, 0, 0, 0, 0, 0, 0, 0, 0]] :=
    List.Forall₂.cons rfl List.Forall₂.nil
  have hne : [[(1 : ℝ), 0, 0, 0, 0, 0, 0, 0, 0, 0]] ≠ ([] : List (List ℝ)) := by
    simp
  exact ⟨hdist,
    (mutual_info_loss_lower_bound _ _ hdist hdist hf hne).1⟩

/-- C3 (counterexample): at the valid pair of identical one-hot batches
`c = c_given_x = [[1,0,0,0,0,0,0,0,0,0]]` the mutual information loss equals
`-2·log(1+1e-8)`, which is strictly negative — so the loss is neither
non-negative on all valid probability inputs nor zero at identical one-hot
codes. -/
theorem mutual_info_loss_neg_at_onehot :
    isDistBatch [[(1 : ℝ), 0, 0, 0, 0, 0, 0, 0, 0, 0]]
    ∧ mutual_info_loss [[(1 : ℝ), 0, 0, 0, 0, 0, 0, 0, 0, 0]]
        [[(1 : ℝ), 0, 0, 0, 0, 0, 0, 0, 0, 0]] < 0 := by
  constructor
  · intro row hrow
    simp only [List.mem_singleton] at hrow
    subst hrow
    constructor
    · intro x hx
      fin_cases hx <;> norm_num
    · norm_num
  · have hL : 0 < Real.log (1 + 1e-8) := Real.log_pos (by norm_num)
    have hv : mutual_info_loss [[(1 : ℝ), 0, 0, 0, 0, 0, 0, 0, 0, 0]]
        [[(1 : ℝ), 0, 0, 0, 0, 0, 0, 0, 0, 0]]
        = -(Real.log (1 + 1e-8)) + -(Real.log (1 + 1e-8)) := by
      simp [mutual_info_loss, negSumLogMul, kMean]
    rw [hv]
    linarith
